import Mathlib

/-!
A verification development for the trustdidweb-rs library: a shallow
embedding of its data model and of the log-replay verifier, together with
theorems checking the natural-language specification against the code.

Rust strings are modelled as `List Char`; machine integers (`u64`, `u16`,
`u32`) as `Nat` with explicit range checks where the source performs them;
`DateTime<Utc>` as `Int` (only ordering and opaque serialization are used);
fallible code returns `Except`.

External collaborators (the `sha2`, `base58`, `serde_json_canonicalizer`
and `serde` crates) are modelled as parameters gathered in the `Hashers`
structure: the repository's own code only composes them.
-/

namespace TrustDidWeb

/-! ## Generic character-list utilities

These model the Rust standard-library string operations the source uses:
`str::split(char)` (`splitOnC`), `Vec::join` (`joinC`), `str::splitn(2, _)`
(`splitOnceC`), `str::lines` (`linesOf`), and decimal formatting/parsing of
unsigned integers (`natToDec`, `parseUBound`).
-/

/-- Model of Rust `str::split(c)`: always returns at least one part. -/
def splitOnC (c : Char) : List Char → List (List Char)
  | [] => [[]]
  | x :: xs =>
    if x = c then [] :: splitOnC c xs
    else
      match splitOnC c xs with
      | [] => [[x]]
      | h :: t => (x :: h) :: t

/-- Model of Rust `[&str]::join(c)`. -/
def joinC (c : Char) : List (List Char) → List Char
  | [] => []
  | l :: ls =>
    match ls with
    | [] => l
    | _ :: _ => l ++ c :: joinC c ls

/-- Model of Rust `str::splitn(2, c)`: the part before the first `c`, and
optionally the remainder after it. -/
def splitOnceC (c : Char) : List Char → List Char × Option (List Char)
  | [] => ([], none)
  | x :: xs =>
    if x = c then ([], some xs)
    else
      let r := splitOnceC c xs
      (x :: r.1, r.2)

/-- The decimal digit character for a value below ten. -/
def decDigit : Nat → Char
  | 0 => '0'
  | 1 => '1'
  | 2 => '2'
  | 3 => '3'
  | 4 => '4'
  | 5 => '5'
  | 6 => '6'
  | 7 => '7'
  | 8 => '8'
  | _ => '9'

/-- Model of Rust decimal formatting of an unsigned integer. -/
def natToDec (n : Nat) : List Char :=
  if _h : n < 10 then [decDigit n]
  else natToDec (n / 10) ++ [decDigit (n % 10)]
  termination_by n
  decreasing_by
    exact Nat.div_lt_self (by omega) (by omega)

/-- Numeric value of a decimal digit character. -/
def digitVal (ch : Char) : Nat := ch.toNat - 48

/-- Value of a digit string, most significant digit first. -/
def decToNat (l : List Char) : Nat :=
  l.foldl (fun a ch => a * 10 + digitVal ch) 0

/-- Parse one or more decimal digits whose value lies below `bound`;
anything else is a parse failure. -/
def parseDigits (bound : Nat) (t : List Char) : Option Nat :=
  if t = [] then none
  else if t.all (fun ch => ch.isDigit) then
    if decToNat t < bound then some (decToNat t) else none
  else none

/-- Model of Rust `from_str` for an unsigned integer type whose values are
below `bound`: an optional leading plus sign, then one or more decimal
digits; overflow past the type's range is a parse failure. -/
def parseUBound (bound : Nat) (s : List Char) : Option Nat :=
  parseDigits bound (if s.head? = some '+' then s.tail else s)

/-- Model of `str::parse::<u16>`. -/
def parseU16 (s : List Char) : Option Nat := parseUBound 65536 s

/-- Model of `str::parse::<u64>`. -/
def parseU64 (s : List Char) : Option Nat := parseUBound (2 ^ 64) s

/-- Strip one trailing carriage return, as Rust `str::lines` does per line. -/
def stripCR (l : List Char) : List Char :=
  if l.getLast? = some '\x0d' then l.dropLast else l

/-- Model of Rust `str::lines`: split on newline with terminator semantics
(a trailing newline produces no final empty line), stripping one trailing
carriage return from each line. -/
def linesOf (s : List Char) : List (List Char) :=
  let parts := splitOnC '\n' s
  let parts := if parts.getLast? = some [] then parts.dropLast else parts
  parts.map stripCR

/-! ## Data model (src/types.rs) -/

/-- Model of `serde_json::Value`, used only as the opaque payload of a
service endpoint. -/
inductive Json where
  | null : Json
  | bool (b : Bool) : Json
  | num (n : Int) : Json
  | str (s : List Char) : Json
  | arr (elems : List Json) : Json
  | obj (fields : List (List Char × Json)) : Json

/-- Service endpoint in a DID Document (src/types.rs `Service`). -/
structure Service where
  id : List Char
  service_type : List Char
  service_endpoint : Json

/-- Verification method in a DID Document (src/types.rs `VerificationMethod`). -/
structure VerificationMethod where
  id : List Char
  method_type : List Char
  controller : List Char
  public_key_multibase : List Char

/-- DID Document (src/types.rs `DIDDocument`). -/
structure DIDDocument where
  context : List (List Char)
  id : List Char
  also_known_as : Option (List (List Char))
  verification_method : Option (List VerificationMethod)
  authentication : Option (List (List Char))
  assertion_method : Option (List (List Char))
  service : Option (List Service)
  deactivated : Option Bool

/-- Witness declaration (src/types.rs `Witness`); `weight` is a `u32`. -/
structure WitnessDecl where
  id : List Char
  weight : Nat

/-- Witness-quorum configuration (src/types.rs `WitnessConfig`). -/
structure WitnessConfig where
  threshold : Nat
  self_weight : Nat
  witnesses : List WitnessDecl

/-- DID parameters (src/types.rs `DIDParameters`). -/
structure DIDParameters where
  method : List Char
  scid : Option (List Char)
  update_keys : Option (List (List Char))
  prerotation : Option Bool
  next_key_hashes : Option (List (List Char))
  portable : Option Bool
  witness : Option WitnessConfig
  deactivated : Option Bool
  ttl : Option Nat

/-- Proof purpose (src/types.rs `ProofPurpose`). -/
inductive ProofPurpose where
  | Authentication : ProofPurpose
  | AssertionMethod : ProofPurpose
deriving DecidableEq

/-- Data Integrity Proof (src/types.rs `Proof`). -/
structure ProofData where
  proof_type : List Char
  created : Int
  verification_method : List Char
  proof_purpose : ProofPurpose
  proof_value : List Char
  challenge : Option (List Char)

/-- One line of the DID log (src/types.rs `DIDLogEntry`). -/
structure DIDLogEntry where
  version_id : List Char
  version_time : Int
  parameters : DIDParameters
  state : DIDDocument
  proof : List ProofData

/-- Error taxonomy (src/error.rs `DIDTDWError`). Variants carrying a
formatted message keep it as an opaque string. -/
inductive DIDTDWError where
  | InvalidDIDFormat
  | SCIDGenerationFailed
  | EntryHashGenerationFailed
  | InvalidLogEntry
  | ResolutionFailed
  | KeyManagementError (msg : List Char)
  | WitnessError (msg : List Char)
  | SerializationError (msg : List Char)
  | MultihashError (msg : List Char)
  | JCSCanonalizationError (msg : List Char)
  | InvalidProof
  | InvalidVersionId
  | InvalidVersionNumber
  | InvalidEntryHash
  | InvalidVersionTime
  | FutureVersionTime
  | MissingSCID
  | InvalidSCID
  | VersionNotFound
  | NoDocumentFound
  | PreRotationNotActive
  | InvalidNextKeyHashes
  | KeyNotPreRotated
  | CannotDeactivatePreRotation
  | InvalidPreRotationKey
  | MissingNextKeyHashes
  | AskarError (msg : List Char)
  | RequestError (msg : List Char)
  | Base58DecodeError (msg : List Char)
  | UrlError (msg : List Char)
deriving DecidableEq

/-! ## External collaborators

The source composes the `sha2`, `multihash`, `base58` and
`serde_json_canonicalizer` crates. Those primitives are not code of this
repository; they enter the embedding as opaque function parameters. -/

/-- The external hashing and serialization collaborators:
`sha256` models `Sha256::digest` on the bytes of a string; `base58` models
`ToBase58::to_base58`; `jcs` models `serde_json_canonicalizer::to_string`
applied to a serialized `DIDLogEntry`; `scidSer` models building the
`json!({versionId, versionTime (RFC3339), parameters, state})` object of
`generate_scid` and canonicalizing it (arguments in that order). -/
structure Hashers where
  sha256 : List Char → List Nat
  base58 : List Nat → List Char
  jcs : DIDLogEntry → Except (List Char) (List Char)
  scidSer : List Char → Int → DIDParameters → DIDDocument →
    Except (List Char) (List Char)

/-! ## Entry hashing and SCID derivation (src/utils.rs) -/

/-- The multihash code for SHA2-256 (src/utils.rs `SHA2_256`). -/
def SHA2_256 : Nat := 0x12

/-- `Multihash::<64>::wrap(SHA2_256, digest).to_bytes().to_base58()`:
fails when the digest exceeds the 64-byte capacity, otherwise prepends the
code byte and the length byte and base58btc-encodes. Every hashing site in
the source performs exactly this composition after `Sha256::digest`. -/
def multihashWrapToBase58 (H : Hashers) (input : List Char) :
    Except DIDTDWError (List Char) :=
  let d := H.sha256 input
  if d.length > 64 then
    .error (.MultihashError "invalid multihash size".toList)
  else .ok (H.base58 (SHA2_256 :: d.length :: d))

/-- src/utils.rs `calculate_entry_hash`: canonicalize the entry with its
proof list emptied, then multihash-sha256 and base58. -/
def calculate_entry_hash (H : Hashers) (e : DIDLogEntry) :
    Except DIDTDWError (List Char) :=
  match H.jcs { e with proof := [] } with
  | .error m => .error (.JCSCanonalizationError m)
  | .ok c => multihashWrapToBase58 H c

/-- The literal SCID placeholder string (src/utils.rs `SCID_PLACEHOLDER`). -/
def scidPlaceholder : List Char := "\x7bSCID\x7d".toList

/-- src/utils.rs `generate_scid`: substitute the placeholder for
`versionId` and `parameters.scid`, serialize the object
`{versionId, versionTime (RFC3339), parameters, state}` (proof omitted),
canonicalize, multihash-sha256, base58. -/
def generate_scid (H : Hashers) (e : DIDLogEntry) :
    Except DIDTDWError (List Char) :=
  match H.scidSer scidPlaceholder e.version_time
      { e.parameters with scid := some scidPlaceholder } e.state with
  | .error m => .error (.SerializationError m)
  | .ok c => multihashWrapToBase58 H c

/-- src/utils.rs `verify_scid`: recompute and compare. -/
def verify_scid (H : Hashers) (scid : List Char) (e : DIDLogEntry) :
    Except DIDTDWError Bool :=
  match generate_scid H e with
  | .error er => .error er
  | .ok g => .ok (decide (scid = g))

/-- src/resolution.rs `DidResolver::hash_key` (same body as
src/operations.rs `hash_key`): multihash-sha256 of the JWK string bytes. -/
def hash_key (H : Hashers) (key_jwk : List Char) :
    Except DIDTDWError (List Char) :=
  multihashWrapToBase58 H key_jwk

/-! ## Proof engine (src/operations.rs) -/

/-- src/operations.rs `DidOperations::verify_proof`: canonicalize the entry
with its proof list emptied; the source then returns `Ok(true)`
unconditionally (its own comment marks signature verification as an
unimplemented TODO placeholder). -/
def DidOperations.verify_proof (H : Hashers) (e : DIDLogEntry) :
    Except DIDTDWError Bool :=
  match H.jcs { e with proof := [] } with
  | .error m => .error (.JCSCanonalizationError m)
  | .ok _ => .ok true

/-- src/operations.rs `DidOperations::generate_entry_hash`. -/
def DidOperations.generate_entry_hash (H : Hashers) (e : DIDLogEntry) :
    Except DIDTDWError (List Char) :=
  calculate_entry_hash H e

/-! ## Identifier codec (src/did_tdw.rs) -/

/-- src/did_tdw.rs `TdwDid`. `port` is a `u16` in the source. -/
structure TdwDid where
  scid : List Char
  domain : List Char
  port : Option Nat
  path : Option (List Char)
deriving DecidableEq

/-- src/did_tdw.rs `TdwDid::to_string`:
`did:tdw:<scid>:<domain>[:<port>][/<path>]`. -/
def TdwDid.to_string (d : TdwDid) : List Char :=
  "did:tdw:".toList ++ d.scid ++ ':' :: d.domain
    ++ (match d.port with
        | some p => ':' :: natToDec p
        | none => [])
    ++ (match d.path with
        | some p => '/' :: p
        | none => [])

/-- src/did_tdw.rs `TdwDid::parse_and_validate_tdw_did`: split on `:`,
require the shape `did:tdw:<scid>:...`, rejoin the remainder, split once on
`/` into authority and path, and split the authority on `:` into host and
optional port. -/
def TdwDid.parse_and_validate_tdw_did (s : List Char) :
    Except DIDTDWError TdwDid :=
  let parts := splitOnC ':' s
  if parts.length < 4 ∨ parts.headD [] ≠ "did".toList ∨
      (parts.drop 1).headD [] ≠ "tdw".toList then
    .error .InvalidDIDFormat
  else
    let scid := (parts.drop 2).headD []
    let rest := joinC ':' (parts.drop 3)
    let split2 := splitOnceC '/' rest
    let domain_and_port := split2.1
    let path := split2.2
    if ':' ∈ domain_and_port then
      let dp := splitOnC ':' domain_and_port
      match parseU16 ((dp.drop 1).headD []) with
      | some p => .ok ⟨scid, dp.headD [], some p, path⟩
      | none => .error .InvalidDIDFormat
    else .ok ⟨scid, domain_and_port, none, path⟩

/-! ## The verifier state machine (src/resolution.rs) -/

/-- The mutable fields of src/resolution.rs `DidResolver`. The HTTP client
and the key store are external collaborators carrying no verifier state;
the `HashSet<String>` `next_key_hashes` is modelled by the list of strings
inserted into it (the code only ever writes it). -/
structure ResolverState where
  active_parameters : DIDParameters
  processed_documents : List (List Char × Int × DIDDocument)
  current_version : Nat
  pre_rotation_active : Bool
  next_key_hashes : List (List Char)

/-- src/resolution.rs `DidResolver::new`. -/
def DidResolver.new : ResolverState :=
  { active_parameters :=
      { method := "did:tdw:0.4".toList
        scid := none
        update_keys := none
        prerotation := none
        next_key_hashes := none
        portable := none
        witness := none
        deactivated := none
        ttl := none }
    processed_documents := []
    current_version := 0
    pre_rotation_active := false
    next_key_hashes := [] }

/-- Carry-forward of one optional parameter field: an `if let Some`
overwrite in the source. -/
def carryOpt {α : Type} (new old : Option α) : Option α :=
  match new with
  | some v => some v
  | none => old

/-- src/resolution.rs `DidResolver::update_parameters`. The source returns
`Result` but has no error path; every `Some` field of the incoming
parameters overwrites the active one, `prerotation` is mirrored into
`pre_rotation_active`, and `next_key_hashes` replaces the tracked set. -/
def update_parameters (s : ResolverState) (p : DIDParameters) :
    ResolverState :=
  { s with
    active_parameters :=
      { method := p.method
        scid := carryOpt p.scid s.active_parameters.scid
        update_keys := carryOpt p.update_keys s.active_parameters.update_keys
        prerotation := carryOpt p.prerotation s.active_parameters.prerotation
        next_key_hashes :=
          carryOpt p.next_key_hashes s.active_parameters.next_key_hashes
        portable := carryOpt p.portable s.active_parameters.portable
        witness := carryOpt p.witness s.active_parameters.witness
        deactivated := carryOpt p.deactivated s.active_parameters.deactivated
        ttl := carryOpt p.ttl s.active_parameters.ttl }
    pre_rotation_active :=
      match p.prerotation with
      | some b => b
      | none => s.pre_rotation_active
    next_key_hashes :=
      match p.next_key_hashes with
      | some v => v
      | none => s.next_key_hashes }

/-- src/resolution.rs `DidResolver::verify_proof`: lift the boolean result
of the proof engine, mapping `false` to `InvalidProof`. -/
def DidResolver.verify_proof (H : Hashers) (e : DIDLogEntry) :
    Except DIDTDWError Unit :=
  match DidOperations.verify_proof H e with
  | .ok true => .ok ()
  | .ok false => .error .InvalidProof
  | .error er => .error er

/-- src/resolution.rs `DidResolver::verify_version_id_and_hash`. -/
def verify_version_id_and_hash (H : Hashers) (s : ResolverState)
    (e : DIDLogEntry) : Except DIDTDWError Unit :=
  let parts := splitOnC '-' e.version_id
  if parts.length ≠ 2 then .error .InvalidVersionId
  else
    match parseU64 (parts.headD []) with
    | none => .error .InvalidVersionId
    | some n =>
      if n ≠ s.current_version + 1 then .error .InvalidVersionNumber
      else
        match DidOperations.generate_entry_hash H e with
        | .error er => .error er
        | .ok h =>
          if h ≠ (parts.drop 1).headD [] then .error .InvalidEntryHash
          else .ok ()

/-- src/resolution.rs `DidResolver::check_version_time`; `now` is the value
of `Utc::now()` at the moment of the call. -/
def check_version_time (now : Int) (s : ResolverState) (e : DIDLogEntry) :
    Except DIDTDWError Unit :=
  match s.processed_documents.getLast? with
  | some last =>
    if e.version_time ≤ last.2.1 then .error .InvalidVersionTime
    else if e.version_time > now then .error .FutureVersionTime
    else .ok ()
  | none =>
    if e.version_time > now then .error .FutureVersionTime
    else .ok ()

/-- src/resolution.rs `DidResolver::verify_scid` (the method): the active
SCID must be present and must verify against the entry. -/
def DidResolver.verify_scid_check (H : Hashers) (s : ResolverState)
    (e : DIDLogEntry) : Except DIDTDWError Unit :=
  match s.active_parameters.scid with
  | none => .error .MissingSCID
  | some scid =>
    match verify_scid H scid e with
    | .error er => .error er
    | .ok b => if b then .ok () else .error .InvalidSCID

/-- The key loop of src/resolution.rs `DidResolver::handle_pre_rotation`:
each update key must hash into the tracked next-key-hash list. -/
def check_update_keys (H : Hashers) (nh : List (List Char)) :
    List (List Char) → Except DIDTDWError Unit
  | [] => .ok ()
  | k :: rest =>
    match hash_key H k with
    | .error er => .error er
    | .ok hk =>
      if hk ∈ nh then check_update_keys H nh rest
      else .error .InvalidPreRotationKey

/-- src/resolution.rs `DidResolver::handle_pre_rotation`. Note: the gate is
the entry's own `prerotation` flag, and the hash list consulted is
`self.active_parameters.next_key_hashes`, read after `update_parameters`
has already run in `process_log_entry`. -/
def handle_pre_rotation (H : Hashers) (s : ResolverState)
    (e : DIDLogEntry) : Except DIDTDWError Unit :=
  if e.parameters.prerotation.getD false then
    match e.parameters.update_keys with
    | none => .error .InvalidLogEntry
    | some current_update_keys =>
      match s.active_parameters.next_key_hashes with
      | none => .error .InvalidLogEntry
      | some previous_next_key_hashes =>
        match check_update_keys H previous_next_key_hashes
            current_update_keys with
        | .error er => .error er
        | .ok _ =>
          if e.parameters.next_key_hashes.isNone then
            .error .MissingNextKeyHashes
          else .ok ()
  else .ok ()

/-- src/resolution.rs `DidResolver::process_log_entry`. The source method
mutates `self` and returns `Result<()>`; the embedding returns the state
the method leaves behind together with the error, if any. The parameter
carry-forward runs first; the commit (append to `processed_documents`,
increment `current_version`) runs only after every check has passed. -/
def process_log_entry (H : Hashers) (now : Int) (s : ResolverState)
    (e : DIDLogEntry) : ResolverState × Option DIDTDWError :=
  let s1 := update_parameters s e.parameters
  match DidResolver.verify_proof H e with
  | .error er => (s1, some er)
  | .ok _ =>
  match verify_version_id_and_hash H s1 e with
  | .error er => (s1, some er)
  | .ok _ =>
  match check_version_time now s1 e with
  | .error er => (s1, some er)
  | .ok _ =>
  match (if s1.current_version = 0 then DidResolver.verify_scid_check H s1 e
         else .ok ()) with
  | .error er => (s1, some er)
  | .ok _ =>
  match handle_pre_rotation H s1 e with
  | .error er => (s1, some er)
  | .ok _ =>
    ({ s1 with
        processed_documents :=
          s1.processed_documents ++ [(e.version_id, e.version_time, e.state)]
        current_version := s1.current_version + 1 }, none)

/-- src/resolution.rs `DidResolver::get_did_document`. -/
def get_did_document (s : ResolverState) (version_id : Option (List Char))
    (version_time : Option Int) : Except DIDTDWError DIDDocument :=
  match version_id with
  | some vid =>
    match s.processed_documents.find? (fun t => decide (t.1 = vid)) with
    | some t => .ok t.2.2
    | none => .error .VersionNotFound
  | none =>
    match version_time with
    | some vtime =>
      match s.processed_documents.reverse.find?
          (fun t => decide (t.2.1 ≤ vtime)) with
      | some t => .ok t.2.2
      | none => .error .VersionNotFound
    | none =>
      match s.processed_documents.getLast? with
      | some t => .ok t.2.2
      | none => .error .NoDocumentFound

/-- src/resolution.rs `DidResolver::fetch_did_log`, past the HTTP layer:
split the fetched text into lines and keep, in order, exactly those lines
that deserialize as a `DIDLogEntry`. `parse` models
`serde_json::from_str::<DIDLogEntry>` composed with `.ok()`. -/
def fetch_did_log (parse : List Char → Option DIDLogEntry)
    (text : List Char) : List DIDLogEntry :=
  (linesOf text).filterMap parse

/-- The replay loop of src/resolution.rs `resolve_did`: process each entry
in order, stopping at the first error. Each entry is paired with the
`Utc::now()` reading of its `check_version_time` call. -/
def replay (H : Hashers) : ResolverState → List (Int × DIDLogEntry) →
    ResolverState × Option DIDTDWError
  | s, [] => (s, none)
  | s, te :: rest =>
    match process_log_entry H te.1 s te.2 with
    | (s1, none) => replay H s1 rest
    | (s1, some er) => (s1, some er)

/-- Modelled from the spec: §4.5.3 `select`, written from the spec's words
for comparison with `get_did_document`. With a version id, the document
whose `versionId` matches exactly; else with a version time, the document
of the latest accepted entry whose `versionTime` is at most that time;
else the latest accepted entry's document. -/
def select_spec (s : ResolverState) (version_id : Option (List Char))
    (version_time : Option Int) : Except DIDTDWError DIDDocument :=
  match version_id with
  | some vid =>
    match (s.processed_documents.filter (fun t => decide (t.1 = vid))).head? with
    | some t => .ok t.2.2
    | none => .error .VersionNotFound
  | none =>
    match version_time with
    | some vtime =>
      match (s.processed_documents.filter
          (fun t => decide (t.2.1 ≤ vtime))).getLast? with
      | some t => .ok t.2.2
      | none => .error .VersionNotFound
    | none =>
      match s.processed_documents.getLast? with
      | some t => .ok t.2.2
      | none => .error .NoDocumentFound

/-- The numeric prefix of a `versionId` string: the `u64` parse of the part
before the first dash, exactly as `verify_version_id_and_hash` reads it. -/
def versionNumberOf (id : List Char) : Option Nat :=
  parseU64 ((splitOnC '-' id).headD [])

/-- The sequence of `versionTime` values along the accepted history. -/
def historyTimes (s : ResolverState) : List Int :=
  s.processed_documents.map (fun t => t.2.1)

/-! ## Concrete instantiations for witnesses and counterexamples

A degenerate but legal instantiation of the external collaborators: every
digest is empty and every base58 encoding is the single letter `h`. The
control flow of the verifier is independent of the collaborators' values,
so these make the checks concretely computable. -/

/-- Concrete external collaborators used by witnesses. -/
def hashersC : Hashers :=
  { sha256 := fun _ => []
    base58 := fun _ => ['h']
    jcs := fun _ => .ok []
    scidSer := fun _ _ _ _ => .ok [] }

/-- An empty DID document. -/
def doc0 : DIDDocument :=
  { context := []
    id := []
    also_known_as := none
    verification_method := none
    authentication := none
    assertion_method := none
    service := none
    deactivated := none }

/-- Parameters with only the method tag set. -/
def params0 : DIDParameters :=
  { method := "did:tdw:0.4".toList
    scid := none
    update_keys := none
    prerotation := none
    next_key_hashes := none
    portable := none
    witness := none
    deactivated := none
    ttl := none }

/-- A genesis entry accepted by the verifier under `hashersC`: version id
`1-h`, the SCID equal to its own derivation, no update keys, no proof. -/
def eGen : DIDLogEntry :=
  { version_id := "1-h".toList
    version_time := 1
    parameters := { params0 with scid := some ['h'] }
    state := doc0
    proof := [] }

/-- An entry whose version id has no dash, so ingest fails with
`InvalidVersionId` after the parameter carry-forward has already set
`prerotation`. -/
def eBad : DIDLogEntry :=
  { version_id := "bad".toList
    version_time := 1
    parameters := { params0 with prerotation := some true }
    state := doc0
    proof := [] }

/-- A state one accepted entry deep whose previous entry announced
pre-rotation, committing to the single next-key hash `H1`. -/
def sPre : ResolverState :=
  { active_parameters :=
      { params0 with
        scid := some ['h']
        update_keys := some ["k0".toList]
        prerotation := some true
        next_key_hashes := some ["H1".toList] }
    processed_documents := [("1-h".toList, 0, doc0)]
    current_version := 1
    pre_rotation_active := true
    next_key_hashes := ["H1".toList] }

/-- A successor entry that rotates to the key `K` (whose hash is not the
committed `H1`), omits the `prerotation` flag and publishes no
`next_key_hashes`. -/
def eRotate : DIDLogEntry :=
  { version_id := "2-h".toList
    version_time := 1
    parameters := { params0 with update_keys := some [['K']] }
    state := doc0
    proof := [] }

/-- A successor entry that sets `prerotation := false` while pre-rotation
is active. -/
def eDeact : DIDLogEntry :=
  { version_id := "2-h".toList
    version_time := 1
    parameters := { params0 with prerotation := some false }
    state := doc0
    proof := [] }

/-! ## Frame lemmas on the verifier step -/

theorem update_parameters_docs (s : ResolverState) (p : DIDParameters) :
    (update_parameters s p).processed_documents = s.processed_documents :=
  rfl

theorem update_parameters_version (s : ResolverState) (p : DIDParameters) :
    (update_parameters s p).current_version = s.current_version :=
  rfl

/-- Shape of one verifier step: either it fails having performed exactly
the parameter carry-forward, or it succeeds and additionally commits the
entry and increments the version. -/
theorem process_log_entry_shape (H : Hashers) (now : Int)
    (s : ResolverState) (e : DIDLogEntry) :
    (∃ er, process_log_entry H now s e =
      (update_parameters s e.parameters, some er)) ∨
    (process_log_entry H now s e =
      ({ update_parameters s e.parameters with
          processed_documents :=
            s.processed_documents ++ [(e.version_id, e.version_time, e.state)]
          current_version := s.current_version + 1 }, none) ∧
      verify_version_id_and_hash H (update_parameters s e.parameters) e =
        .ok () ∧
      check_version_time now (update_parameters s e.parameters) e = .ok ()) := by
  cases hvp : DidResolver.verify_proof H e with
  | error er => exact Or.inl ⟨er, by simp [process_log_entry, hvp]⟩
  | ok u =>
    cases u
    cases hvv : verify_version_id_and_hash H
        (update_parameters s e.parameters) e with
    | error er => exact Or.inl ⟨er, by simp [process_log_entry, hvp, hvv]⟩
    | ok u2 =>
      cases u2
      cases hct : check_version_time now (update_parameters s e.parameters) e with
      | error er => exact Or.inl ⟨er, by simp [process_log_entry, hvp, hvv, hct]⟩
      | ok u3 =>
        cases u3
        cases hsc : (if (update_parameters s e.parameters).current_version = 0
            then DidResolver.verify_scid_check H
              (update_parameters s e.parameters) e
            else .ok ()) with
        | error er =>
          exact Or.inl ⟨er, by simp [process_log_entry, hvp, hvv, hct, hsc]⟩
        | ok u4 =>
          cases u4
          cases hpr : handle_pre_rotation H
              (update_parameters s e.parameters) e with
          | error er =>
            exact Or.inl ⟨er, by
              simp [process_log_entry, hvp, hvv, hct, hsc, hpr]⟩
          | ok u5 =>
            cases u5
            refine Or.inr ⟨?_, rfl, rfl⟩
            simp [process_log_entry, hvp, hvv, hct, hsc, hpr]
            exact ⟨rfl, rfl⟩

/-- On any failing step, the state left behind is exactly the parameter
carry-forward applied to the pre-state. -/
theorem process_error_state (H : Hashers) (now : Int) (s : ResolverState)
    (e : DIDLogEntry) (er : DIDTDWError)
    (h : (process_log_entry H now s e).2 = some er) :
    (process_log_entry H now s e).1 = update_parameters s e.parameters := by
  rcases process_log_entry_shape H now s e with ⟨er2, heq⟩ | ⟨heq, -, -⟩
  · rw [heq]
  · rw [heq] at h
    simp at h

/-! ## No check ever raises `CannotDeactivatePreRotation` -/

theorem multihash_no_cdpr (H : Hashers) (c : List Char) :
    multihashWrapToBase58 H c ≠ .error .CannotDeactivatePreRotation := by
  simp only [multihashWrapToBase58]
  split <;> simp

theorem entry_hash_no_cdpr (H : Hashers) (e : DIDLogEntry) :
    calculate_entry_hash H e ≠ .error .CannotDeactivatePreRotation := by
  unfold calculate_entry_hash
  split
  · simp
  · exact multihash_no_cdpr _ _

theorem generate_scid_no_cdpr (H : Hashers) (e : DIDLogEntry) :
    generate_scid H e ≠ .error .CannotDeactivatePreRotation := by
  unfold generate_scid
  split
  · simp
  · exact multihash_no_cdpr _ _

theorem verify_scid_no_cdpr (H : Hashers) (sc : List Char) (e : DIDLogEntry) :
    verify_scid H sc e ≠ .error .CannotDeactivatePreRotation := by
  unfold verify_scid
  split
  · rename_i er heq
    intro h
    simp only [Except.error.injEq] at h
    rw [h] at heq
    exact generate_scid_no_cdpr H e heq
  · simp

theorem scid_check_no_cdpr (H : Hashers) (s : ResolverState)
    (e : DIDLogEntry) :
    DidResolver.verify_scid_check H s e ≠
      .error .CannotDeactivatePreRotation := by
  unfold DidResolver.verify_scid_check
  cases hsp : s.active_parameters.scid with
  | none => simp
  | some sc =>
    cases hvs : verify_scid H sc e with
    | error er =>
      simp only [hvs]
      intro h
      simp only [Except.error.injEq] at h
      rw [h] at hvs
      exact verify_scid_no_cdpr H sc e hvs
    | ok b =>
      simp only [hvs]
      split <;> simp

theorem ops_proof_no_cdpr (H : Hashers) (e : DIDLogEntry) :
    DidOperations.verify_proof H e ≠ .error .CannotDeactivatePreRotation := by
  unfold DidOperations.verify_proof
  split <;> simp

theorem proof_check_no_cdpr (H : Hashers) (e : DIDLogEntry) :
    DidResolver.verify_proof H e ≠ .error .CannotDeactivatePreRotation := by
  unfold DidResolver.verify_proof
  split
  · simp
  · simp
  · rename_i er heq
    intro h
    simp only [Except.error.injEq] at h
    rw [h] at heq
    exact ops_proof_no_cdpr H e heq

theorem version_check_no_cdpr (H : Hashers) (s : ResolverState)
    (e : DIDLogEntry) :
    verify_version_id_and_hash H s e ≠
      .error .CannotDeactivatePreRotation := by
  simp only [verify_version_id_and_hash, DidOperations.generate_entry_hash]
  cases hch : calculate_entry_hash H e with
  | error er =>
    simp only [hch]
    intro h
    split at h
    · simp at h
    · split at h
      · simp at h
      · split at h
        · simp at h
        · simp only [Except.error.injEq] at h
          rw [h] at hch
          exact entry_hash_no_cdpr H e hch
  | ok g =>
    simp only [hch]
    intro h
    split at h
    · simp at h
    · split at h
      · simp at h
      · split at h
        · simp at h
        · split at h
          · simp at h
          · simp at h

theorem time_check_no_cdpr (now : Int) (s : ResolverState)
    (e : DIDLogEntry) :
    check_version_time now s e ≠ .error .CannotDeactivatePreRotation := by
  unfold check_version_time
  split
  · split
    · simp
    · split <;> simp
  · split <;> simp

theorem check_keys_no_cdpr (H : Hashers) (nh : List (List Char))
    (ks : List (List Char)) :
    check_update_keys H nh ks ≠ .error .CannotDeactivatePreRotation := by
  induction ks with
  | nil => simp [check_update_keys]
  | cons k rest ih =>
    unfold check_update_keys
    split
    · rename_i er heq
      intro h
      simp only [Except.error.injEq] at h
      rw [h] at heq
      exact multihash_no_cdpr H k heq
    · split
      · exact ih
      · simp

theorem pre_rotation_no_cdpr (H : Hashers) (s : ResolverState)
    (e : DIDLogEntry) :
    handle_pre_rotation H s e ≠ .error .CannotDeactivatePreRotation := by
  unfold handle_pre_rotation
  split
  · split
    · simp
    · split
      · simp
      · split
        · rename_i er heq
          intro h
          simp only [Except.error.injEq] at h
          rw [h] at heq
          exact check_keys_no_cdpr _ _ _ heq
        · split <;> simp
  · simp

/-- No input whatsoever makes the verifier raise
`CannotDeactivatePreRotation`: the error variant is declared in
src/error.rs but never produced by ingest. -/
theorem process_no_cdpr (H : Hashers) (now : Int) (s : ResolverState)
    (e : DIDLogEntry) :
    (process_log_entry H now s e).2 ≠
      some .CannotDeactivatePreRotation := by
  intro h
  cases hvp : DidResolver.verify_proof H e with
  | error er2 =>
    have h2 : (process_log_entry H now s e).2 = some er2 := by
      simp [process_log_entry, hvp]
    rw [h] at h2
    rw [(Option.some.inj h2).symm] at hvp
    exact proof_check_no_cdpr H e hvp
  | ok u =>
    cases u
    cases hvv : verify_version_id_and_hash H
        (update_parameters s e.parameters) e with
    | error er2 =>
      have h2 : (process_log_entry H now s e).2 = some er2 := by
        simp [process_log_entry, hvp, hvv]
      rw [h] at h2
      rw [(Option.some.inj h2).symm] at hvv
      exact version_check_no_cdpr H _ e hvv
    | ok u2 =>
      cases u2
      cases hct : check_version_time now
          (update_parameters s e.parameters) e with
      | error er2 =>
        have h2 : (process_log_entry H now s e).2 = some er2 := by
          simp [process_log_entry, hvp, hvv, hct]
        rw [h] at h2
        rw [(Option.some.inj h2).symm] at hct
        exact time_check_no_cdpr now _ e hct
      | ok u3 =>
        cases u3
        cases hsc : (if (update_parameters s e.parameters).current_version = 0
            then DidResolver.verify_scid_check H
              (update_parameters s e.parameters) e
            else .ok ()) with
        | error er2 =>
          have h2 : (process_log_entry H now s e).2 = some er2 := by
            simp [process_log_entry, hvp, hvv, hct, hsc]
          rw [h] at h2
          rw [(Option.some.inj h2).symm] at hsc
          revert hsc
          split
          · exact fun hsc => scid_check_no_cdpr H _ e hsc
          · simp
        | ok u4 =>
          cases u4
          cases hpr : handle_pre_rotation H
              (update_parameters s e.parameters) e with
          | error er2 =>
            have h2 : (process_log_entry H now s e).2 = some er2 := by
              simp [process_log_entry, hvp, hvv, hct, hsc, hpr]
            rw [h] at h2
            rw [(Option.some.inj h2).symm] at hpr
            exact pre_rotation_no_cdpr H _ e hpr
          | ok u5 =>
            cases u5
            have h2 : (process_log_entry H now s e).2 = none := by
              simp [process_log_entry, hvp, hvv, hct, hsc, hpr]
            rw [h] at h2
            simp at h2

/-! ## Facts extracted from successful checks -/

/-- A successful version-id check pins the numeric prefix of the entry's
`versionId` to the next version number. -/
theorem verify_version_ok (H : Hashers) (s : ResolverState)
    (e : DIDLogEntry) (u : Unit)
    (h : verify_version_id_and_hash H s e = .ok u) :
    versionNumberOf e.version_id = some (s.current_version + 1) := by
  simp only [verify_version_id_and_hash, DidOperations.generate_entry_hash]
    at h
  split at h
  · simp at h
  · rename_i hlen
    split at h
    · simp at h
    · rename_i n hparse
      split at h
      · simp at h
      · rename_i hn
        simp only [versionNumberOf]
        rw [hparse]
        simp at hn
        rw [hn]

/-- A successful time check places the entry's time strictly after the
last accepted time. -/
theorem check_time_ok (now : Int) (s : ResolverState) (e : DIDLogEntry)
    (u : Unit) (h : check_version_time now s e = .ok u) :
    ∀ last, s.processed_documents.getLast? = some last →
      last.2.1 < e.version_time := by
  intro last hlast
  unfold check_version_time at h
  rw [hlast] at h
  split at h
  · rename_i last2 heq
    injection heq with heq2
    subst heq2
    split at h
    · simp at h
    · rename_i hle
      omega
  · rename_i heq
    exact Option.noConfusion heq

/-- Everything a successful verifier step guarantees: the commit appends
the entry, increments the version, the version-id prefix was the next
version number, and the entry's time is after the previous last time. -/
theorem process_ok_facts (H : Hashers) (now : Int) (s : ResolverState)
    (e : DIDLogEntry) (s1 : ResolverState)
    (h : process_log_entry H now s e = (s1, none)) :
    s1.processed_documents =
      s.processed_documents ++ [(e.version_id, e.version_time, e.state)] ∧
    s1.current_version = s.current_version + 1 ∧
    versionNumberOf e.version_id = some (s.current_version + 1) ∧
    ∀ last, s.processed_documents.getLast? = some last →
      last.2.1 < e.version_time := by
  rcases process_log_entry_shape H now s e with ⟨er, heq⟩ | ⟨heq, hvv, hct⟩
  · rw [heq] at h
    simp at h
  · rw [heq] at h
    have hs1 : s1 = { update_parameters s e.parameters with
        processed_documents :=
          s.processed_documents ++ [(e.version_id, e.version_time, e.state)]
        current_version := s.current_version + 1 } := by
      have := congrArg Prod.fst h
      exact this.symm
    refine ⟨by rw [hs1], by rw [hs1], ?_, ?_⟩
    · have := verify_version_ok H (update_parameters s e.parameters) e () hvv
      rw [update_parameters_version] at this
      exact this
    · intro last hlast
      refine check_time_ok now (update_parameters s e.parameters) e () hct
        last ?_
      rw [update_parameters_docs]
      exact hlast

/-! ## Claim C1 (atomicity of ingest) -/

/-- Claim C1, counterexample: ingest of `eBad` from the fresh verifier
fails with `InvalidVersionId`, yet the verifier state is changed:
`pre_rotation_active` has flipped from `false` to `true` because the
parameter carry-forward ran before the failing check. -/
theorem ingest_error_changes_state_cex :
    (process_log_entry hashersC 5 DidResolver.new eBad).2 =
      some .InvalidVersionId ∧
    DidResolver.new.pre_rotation_active = false ∧
    (process_log_entry hashersC 5 DidResolver.new eBad).1.pre_rotation_active
      = true :=
  ⟨rfl, rfl, rfl⟩

/-- Claim C1 as amended: on any failing ingest, `processed_documents` and
`current_version` are unchanged, and the rest of the state is exactly the
parameter carry-forward applied to the pre-state (so `active_parameters`,
`pre_rotation_active` and `next_key_hashes` may differ from their prior
values). -/
theorem ingest_error_state_is_carry_forward (H : Hashers) (now : Int)
    (s : ResolverState) (e : DIDLogEntry) (er : DIDTDWError)
    (h : (process_log_entry H now s e).2 = some er) :
    (process_log_entry H now s e).1 = update_parameters s e.parameters ∧
    (process_log_entry H now s e).1.processed_documents =
      s.processed_documents ∧
    (process_log_entry H now s e).1.current_version = s.current_version := by
  have h1 := process_error_state H now s e er h
  exact ⟨h1, by rw [h1]; exact update_parameters_docs s e.parameters,
    by rw [h1]; exact update_parameters_version s e.parameters⟩

/-- Witness for `ingest_error_state_is_carry_forward` at a concrete
failing ingest. -/
theorem ingest_error_state_is_carry_forward_witness :
    (process_log_entry hashersC 7 DidResolver.new eBad).1 =
      update_parameters DidResolver.new eBad.parameters ∧
    (process_log_entry hashersC 7 DidResolver.new eBad).1.processed_documents
      = DidResolver.new.processed_documents ∧
    (process_log_entry hashersC 7 DidResolver.new eBad).1.current_version =
      DidResolver.new.current_version :=
  ingest_error_state_is_carry_forward hashersC 7 DidResolver.new eBad
    .InvalidVersionId rfl

/-! ## Claim C10 (history and version are only committed at the end) -/

/-- Claim C10: if ingest returns an error, `processed_documents` and
`current_version` are unchanged; the commit is the final step of
`process_log_entry` and runs only after every check has passed. -/
theorem ingest_error_preserves_history (H : Hashers) (now : Int)
    (s : ResolverState) (e : DIDLogEntry) (er : DIDTDWError)
    (h : (process_log_entry H now s e).2 = some er) :
    (process_log_entry H now s e).1.processed_documents =
      s.processed_documents ∧
    (process_log_entry H now s e).1.current_version = s.current_version := by
  rw [process_error_state H now s e er h]
  exact ⟨rfl, rfl⟩

/-- Witness for `ingest_error_preserves_history` at a concrete failing
ingest. -/
theorem ingest_error_preserves_history_witness :
    (process_log_entry hashersC 9 DidResolver.new eBad).1.processed_documents
      = DidResolver.new.processed_documents ∧
    (process_log_entry hashersC 9 DidResolver.new eBad).1.current_version =
      DidResolver.new.current_version :=
  ingest_error_preserves_history hashersC 9 DidResolver.new eBad
    .InvalidVersionId rfl

/-! ## Claim C3 (proof verification is an unimplemented placeholder) -/

/-- Claim C3 fails on the code: `DidOperations::verify_proof` returns
`Ok(true)` unconditionally (the source marks real signature verification
as TODO), so from a fresh verifier in which no `update_keys` has ever been
set, an entry carrying no proof at all still passes proof verification and
is ingested, instead of failing with `InvalidProof`. -/
theorem verify_proof_placeholder_accepts :
    DidResolver.new.active_parameters.update_keys = none ∧
    eGen.proof = [] ∧
    eGen.parameters.update_keys = none ∧
    DidOperations.verify_proof hashersC eGen = .ok true ∧
    (process_log_entry hashersC 5 DidResolver.new eGen).2 = none :=
  ⟨rfl, rfl, rfl, rfl, rfl⟩

/-! ## Claim C4 (pre-rotation deactivation) -/

/-- Claim C4 fails on the code: from a state with `pre_rotation_active`
true, an entry setting `prerotation := false` is accepted and flips
`pre_rotation_active` back to `false`; moreover no input at all can make
ingest return `CannotDeactivatePreRotation` (the variant is declared in
src/error.rs but never raised). -/
theorem prerotation_deactivation_accepted :
    sPre.pre_rotation_active = true ∧
    eDeact.parameters.prerotation = some false ∧
    (process_log_entry hashersC 5 sPre eDeact).2 = none ∧
    (process_log_entry hashersC 5 sPre eDeact).1.pre_rotation_active =
      false ∧
    (∀ (H : Hashers) (now : Int) (s : ResolverState) (e : DIDLogEntry),
      (process_log_entry H now s e).2 ≠
        some .CannotDeactivatePreRotation) :=
  ⟨rfl, rfl, rfl, rfl, process_no_cdpr⟩

/-! ## Claim C2 (the pre-rotation gate) -/

/-- Claim C2 fails on the code: with `pre_rotation_active` true from the
previous entry, the successor `eRotate` rotates to a key whose hash is not
in the committed `next_key_hashes` snapshot and publishes no new
`next_key_hashes`, yet ingest accepts it, because `handle_pre_rotation`
is gated on the entry's own `prerotation` field (absent here) rather than
on `pre_rotation_active`. -/
theorem pre_rotation_gate_bypassed :
    sPre.pre_rotation_active = true ∧
    sPre.active_parameters.next_key_hashes = some ["H1".toList] ∧
    eRotate.parameters.update_keys = some [['K']] ∧
    hash_key hashersC ['K'] = .ok ['h'] ∧
    (['h'] ∈ (["H1".toList] : List (List Char))) = False ∧
    eRotate.parameters.prerotation = none ∧
    eRotate.parameters.next_key_hashes = none ∧
    (process_log_entry hashersC 5 sPre eRotate).2 = none := by
  refine ⟨rfl, rfl, rfl, rfl, by simp, rfl, rfl, rfl⟩

/-! ## Claim C7 (the SCID is a fixed point of its own derivation) -/

/-- Claim C7: if a genesis entry's `parameters.scid` is set to
`generate_scid` of the entry, then `verify_scid` accepts it; and
`generate_scid` is invariant under the entry's `versionId`, its
`parameters.scid` and its `proof`, because the derivation substitutes the
placeholder for the first two and omits the third. -/
theorem scid_fixed_point (H : Hashers) (e : DIDLogEntry) (sc : List Char)
    (h : generate_scid H e = .ok sc) :
    verify_scid H sc
      { e with parameters := { e.parameters with scid := some sc } } =
      .ok true ∧
    ∀ (vid : List Char) (prf : List ProofData) (sc2 : Option (List Char)),
      generate_scid H
        { e with
            version_id := vid
            proof := prf
            parameters := { e.parameters with scid := sc2 } } =
        generate_scid H e := by
  have hinv : ∀ (vid : List Char) (prf : List ProofData)
      (sc2 : Option (List Char)),
      generate_scid H
        { e with
            version_id := vid
            proof := prf
            parameters := { e.parameters with scid := sc2 } } =
        generate_scid H e := by
    intro vid prf sc2
    rfl
  refine ⟨?_, hinv⟩
  unfold verify_scid
  have hsame : generate_scid H
      { e with parameters := { e.parameters with scid := some sc } } =
      generate_scid H e := rfl
  rw [hsame, h]
  exact congrArg Except.ok (decide_eq_true rfl)

/-- Witness for `scid_fixed_point` at a concrete genesis entry. -/
theorem scid_fixed_point_witness :
    verify_scid hashersC ['h']
      { eGen with parameters := { eGen.parameters with scid := some ['h'] } }
      = .ok true :=
  (scid_fixed_point hashersC eGen ['h'] rfl).1

/-! ## Claim C5 (version monotonicity along accepted history) -/

/-- The replay invariant: history length equals the version counter,
times are adjacent-increasing, and the `versionId` numeric prefix of the
i-th accepted entry is `i + 1`. -/
def GoodState (s : ResolverState) : Prop :=
  s.processed_documents.length = s.current_version ∧
  List.Chain' (· < ·) (historyTimes s) ∧
  ∀ (i : Nat) (t : List Char × Int × DIDDocument),
    s.processed_documents[i]? = some t →
    versionNumberOf t.1 = some (i + 1)

/-- One successful verifier step preserves the replay invariant. -/
theorem good_step (H : Hashers) (now : Int) (s : ResolverState)
    (e : DIDLogEntry) (s1 : ResolverState)
    (h : process_log_entry H now s e = (s1, none)) (hg : GoodState s) :
    GoodState s1 := by
  obtain ⟨hdocs, hver, hnum, htime⟩ := process_ok_facts H now s e s1 h
  obtain ⟨hlen, hchain, hidx⟩ := hg
  refine ⟨?_, ?_, ?_⟩
  · rw [hdocs, hver, List.length_append, hlen]
    rfl
  · have ht1 : historyTimes s1 = historyTimes s ++ [e.version_time] := by
      unfold historyTimes
      rw [hdocs]
      simp
    rw [ht1, List.chain'_append]
    refine ⟨hchain, List.chain'_singleton _, ?_⟩
    intro x hx y hy
    simp only [List.head?_cons, Option.mem_def, Option.some.injEq] at hy
    subst hy
    unfold historyTimes at hx
    rw [List.getLast?_map] at hx
    cases hl : s.processed_documents.getLast? with
    | none =>
      rw [hl] at hx
      simp at hx
    | some last =>
      rw [hl] at hx
      rw [Option.mem_def] at hx
      have hxx : some last.2.1 = some x := hx
      injection hxx with hxx2
      rw [← hxx2]
      exact htime last hl
  · intro i t ht
    rw [hdocs] at ht
    by_cases hlt : i < s.processed_documents.length
    · rw [List.getElem?_append_left hlt] at ht
      exact hidx i t ht
    · have hge : s.processed_documents.length ≤ i := by omega
      rw [List.getElem?_append_right hge] at ht
      cases hd : i - s.processed_documents.length with
      | zero =>
        rw [hd] at ht
        simp only [List.getElem?_cons_zero, Option.some.injEq] at ht
        have hieq : i = s.processed_documents.length := by omega
        rw [← ht, hieq, hlen]
        exact hnum
      | succ k =>
        rw [hd] at ht
        simp at ht

/-- The replay invariant along any fully successful replay, together with
the total growth of the history. -/
theorem replay_good (H : Hashers) (tes : List (Int × DIDLogEntry)) :
    ∀ (s s1 : ResolverState), replay H s tes = (s1, none) → GoodState s →
      GoodState s1 ∧
      s1.processed_documents.length =
        s.processed_documents.length + tes.length := by
  induction tes with
  | nil =>
    intro s s1 h hg
    unfold replay at h
    injection h with h1 h2
    subst h1
    exact ⟨hg, rfl⟩
  | cons te rest ih =>
    intro s s1 h hg
    unfold replay at h
    cases hpe : process_log_entry H te.1 s te.2 with
    | mk s2 erOpt =>
      rw [hpe] at h
      cases erOpt with
      | none =>
        obtain ⟨hg2, hlen2⟩ := ih s2 s1 h (good_step H te.1 s te.2 s2 hpe hg)
        obtain ⟨hdocs, -, -, -⟩ := process_ok_facts H te.1 s te.2 s2 hpe
        refine ⟨hg2, ?_⟩
        rw [hlen2, hdocs, List.length_append, List.length_singleton,
          List.length_cons]
        omega
      | some er =>
        simp at h

/-- Claim C5: after any fully successful replay of N entries from the
fresh verifier, the history length and `current_version` both equal N,
the `versionTime` sequence is strictly increasing, and the numeric
prefixes of the `versionId` strings in history are exactly `1..N` in
order. -/
theorem replay_version_monotonicity (H : Hashers)
    (tes : List (Int × DIDLogEntry)) (s1 : ResolverState)
    (h : replay H DidResolver.new tes = (s1, none)) :
    s1.processed_documents.length = tes.length ∧
    s1.current_version = tes.length ∧
    List.Pairwise (· < ·) (historyTimes s1) ∧
    ∀ (i : Nat) (t : List Char × Int × DIDDocument),
      s1.processed_documents[i]? = some t →
      versionNumberOf t.1 = some (i + 1) := by
  have hg0 : GoodState DidResolver.new := by
    refine ⟨rfl, List.chain'_nil, ?_⟩
    intro i t ht
    simp [DidResolver.new] at ht
  obtain ⟨⟨hlen, hchain, hidx⟩, hlen2⟩ :=
    replay_good H tes DidResolver.new s1 h hg0
  have hz : DidResolver.new.processed_documents.length = 0 := rfl
  have hN : s1.processed_documents.length = tes.length := by omega
  exact ⟨hN, by rw [← hlen, hN], List.chain'_iff_pairwise.mp hchain, hidx⟩

/-- Witness for `replay_version_monotonicity` on a concrete one-entry
log. -/
theorem replay_version_monotonicity_witness :
    (replay hashersC DidResolver.new
        [(5, eGen)]).1.processed_documents.length = 1 ∧
    (replay hashersC DidResolver.new [(5, eGen)]).1.current_version = 1 ∧
    List.Pairwise (· < ·)
      (historyTimes (replay hashersC DidResolver.new [(5, eGen)]).1) := by
  have h := replay_version_monotonicity hashersC [(5, eGen)]
    (replay hashersC DidResolver.new [(5, eGen)]).1 rfl
  exact ⟨h.1, h.2.1, h.2.2.1⟩

/-! ## Claim C6 (point-in-time selection) -/

theorem find?_eq_filter_head {α : Type} (p : α → Bool) (l : List α) :
    l.find? p = (l.filter p).head? := by
  induction l with
  | nil => rfl
  | cons x xs ih =>
    cases hp : p x
    · rw [List.find?_cons, List.filter_cons, hp]
      exact ih
    · rw [List.find?_cons, List.filter_cons, hp]
      rfl

theorem reverse_find?_eq_filter_getLast {α : Type} (p : α → Bool)
    (l : List α) : l.reverse.find? p = (l.filter p).getLast? := by
  rw [find?_eq_filter_head, List.filter_reverse, List.head?_reverse]

/-- Claim C6: on a verifier whose history times are strictly increasing,
`get_did_document` agrees with the selection rule stated by the spec:
exact `versionId` match (else `VersionNotFound`), else latest entry with
`versionTime` at most the query time (else `VersionNotFound`), else the
latest entry (else `NoDocumentFound`). -/
theorem get_did_document_matches_select (s : ResolverState)
    (version_id : Option (List Char)) (version_time : Option Int)
    (_hinc : List.Pairwise (· < ·) (historyTimes s)) :
    get_did_document s version_id version_time =
      select_spec s version_id version_time := by
  unfold get_did_document select_spec
  cases version_id with
  | some vid => simp only [find?_eq_filter_head]
  | none =>
    cases version_time with
    | some vtime => simp only [reverse_find?_eq_filter_getLast]
    | none => rfl

/-- Witness for `get_did_document_matches_select` on a concrete
one-entry history, for each query mode. -/
theorem get_did_document_matches_select_witness :
    get_did_document sPre (some "1-h".toList) none =
      select_spec sPre (some "1-h".toList) none :=
  get_did_document_matches_select sPre (some "1-h".toList) none (by decide)

/-! ## Split, join and decimal lemmas -/

theorem splitOnC_ne_nil (c : Char) (s : List Char) : splitOnC c s ≠ [] := by
  cases s with
  | nil => simp [splitOnC]
  | cons x xs =>
    unfold splitOnC
    split
    · simp
    · split <;> simp

theorem splitOnC_of_not_mem (c : Char) (s : List Char) (h : c ∉ s) :
    splitOnC c s = [s] := by
  induction s with
  | nil => rfl
  | cons x xs ih =>
    unfold splitOnC
    have hxc : ¬ x = c := by
      intro hx
      subst hx
      exact h (List.mem_cons_self x xs)
    rw [if_neg hxc, ih (fun hm => h (List.mem_cons_of_mem x hm))]

theorem splitOnC_cons (c x : Char) (xs : List Char) :
    splitOnC c (x :: xs) =
      if x = c then [] :: splitOnC c xs
      else
        match splitOnC c xs with
        | [] => [[x]]
        | h :: t => (x :: h) :: t := rfl

theorem splitOnC_append (c : Char) (a b : List Char) (h : c ∉ a) :
    splitOnC c (a ++ c :: b) = a :: splitOnC c b := by
  induction a with
  | nil =>
    rw [List.nil_append, splitOnC_cons, if_pos rfl]
  | cons x xs ih =>
    have hxc : ¬ x = c := by
      intro hx
      subst hx
      exact h (List.mem_cons_self x xs)
    rw [List.cons_append, splitOnC_cons, if_neg hxc]
    rw [ih (fun hm => h (List.mem_cons_of_mem x hm))]

theorem joinC_splitOnC (c : Char) (s : List Char) :
    joinC c (splitOnC c s) = s := by
  induction s with
  | nil => rfl
  | cons x xs ih =>
    obtain ⟨h0, t0, hsplit⟩ : ∃ h0 t0, splitOnC c xs = h0 :: t0 := by
      cases hs : splitOnC c xs with
      | nil => exact absurd hs (splitOnC_ne_nil c xs)
      | cons h0 t0 => exact ⟨h0, t0, rfl⟩
    unfold splitOnC
    by_cases hxc : x = c
    · rw [if_pos hxc, hsplit]
      have h2 : c :: joinC c (h0 :: t0) = c :: xs := by
        have h3 := ih
        rw [hsplit] at h3
        exact congrArg (List.cons c) h3
      rw [hxc]
      exact h2
    · rw [if_neg hxc, hsplit]
      cases t0 with
      | nil =>
        have h3 := ih
        rw [hsplit] at h3
        have h2 : h0 = xs := h3
        exact congrArg (List.cons x) h2
      | cons t1 ts =>
        have h3 := ih
        rw [hsplit] at h3
        have h2 : h0 ++ c :: joinC c (t1 :: ts) = xs := h3
        exact congrArg (List.cons x) h2

theorem splitOnceC_of_not_mem (c : Char) (s : List Char) (h : c ∉ s) :
    splitOnceC c s = (s, none) := by
  induction s with
  | nil => rfl
  | cons x xs ih =>
    unfold splitOnceC
    have hxc : ¬ x = c := by
      intro hx
      subst hx
      exact h (List.mem_cons_self x xs)
    rw [if_neg hxc, ih (fun hm => h (List.mem_cons_of_mem x hm))]

theorem splitOnceC_cons (c x : Char) (xs : List Char) :
    splitOnceC c (x :: xs) =
      if x = c then ([], some xs)
      else (x :: (splitOnceC c xs).1, (splitOnceC c xs).2) := rfl

theorem splitOnceC_append (c : Char) (a b : List Char) (h : c ∉ a) :
    splitOnceC c (a ++ c :: b) = (a, some b) := by
  induction a with
  | nil =>
    rw [List.nil_append, splitOnceC_cons, if_pos rfl]
  | cons x xs ih =>
    have hxc : ¬ x = c := by
      intro hx
      subst hx
      exact h (List.mem_cons_self x xs)
    rw [List.cons_append, splitOnceC_cons, if_neg hxc]
    rw [ih (fun hm => h (List.mem_cons_of_mem x hm))]

theorem decDigit_isDigit (d : Nat) : (decDigit d).isDigit = true := by
  unfold decDigit
  rcases d with _|_|_|_|_|_|_|_|_|d <;> rfl

theorem digitVal_decDigit (d : Nat) (h : d < 10) :
    digitVal (decDigit d) = d := by
  unfold decDigit digitVal
  rcases d with _|_|_|_|_|_|_|_|_|x
  · rfl
  · rfl
  · rfl
  · rfl
  · rfl
  · rfl
  · rfl
  · rfl
  · rfl
  · have hx : x = 0 := by omega
    subst hx
    rfl

theorem decToNat_append_digit (a : List Char) (ch : Char) :
    decToNat (a ++ [ch]) = decToNat a * 10 + digitVal ch := by
  unfold decToNat
  rw [List.foldl_append]
  rfl

theorem decToNat_natToDec (n : Nat) : decToNat (natToDec n) = n := by
  induction n using Nat.strong_induction_on with
  | _ n ih =>
    unfold natToDec
    split
    · rename_i h
      have h1 : decToNat [decDigit n] = 0 * 10 + digitVal (decDigit n) := rfl
      rw [h1, digitVal_decDigit n h]
      omega
    · rename_i h
      rw [decToNat_append_digit,
        ih (n / 10) (Nat.div_lt_self (by omega) (by omega)),
        digitVal_decDigit (n % 10) (Nat.mod_lt _ (by omega))]
      omega

theorem natToDec_all_digit (n : Nat) :
    ∀ ch ∈ natToDec n, ch.isDigit = true := by
  induction n using Nat.strong_induction_on with
  | _ n ih =>
    unfold natToDec
    split
    · intro ch hch
      rw [List.mem_singleton] at hch
      subst hch
      exact decDigit_isDigit n
    · rename_i h
      intro ch hch
      rw [List.mem_append] at hch
      rcases hch with hch | hch
      · exact ih (n / 10) (Nat.div_lt_self (by omega) (by omega)) ch hch
      · rw [List.mem_singleton] at hch
        subst hch
        exact decDigit_isDigit (n % 10)

theorem natToDec_ne_nil (n : Nat) : natToDec n ≠ [] := by
  unfold natToDec
  split
  · simp
  · simp

theorem isDigit_ne_special (ch : Char) (h : ch.isDigit = true) :
    ch ≠ '+' ∧ ch ≠ ':' ∧ ch ≠ '/' ∧ ch ≠ '\n' ∧ ch ≠ '\x0d' := by
  refine ⟨?_, ?_, ?_, ?_, ?_⟩ <;>
    (rintro rfl; exact absurd h (by decide))

theorem parseDigits_natToDec (bound n : Nat) (h : n < bound) :
    parseDigits bound (natToDec n) = some n := by
  unfold parseDigits
  rw [if_neg (natToDec_ne_nil n)]
  rw [if_pos (List.all_eq_true.mpr (fun x hx => natToDec_all_digit n x hx))]
  rw [decToNat_natToDec]
  rw [if_pos h]

/-! ## Claim C8 (identifier round-trip) -/

/-- Splitting the canonical DID string on `:` yields the method header,
the scid, and the split of the remainder. -/
theorem parse_header (scid rest : List Char) (hs2 : ':' ∉ scid) :
    splitOnC ':' ("did:tdw:".toList ++ (scid ++ ':' :: rest)) =
      "did".toList :: "tdw".toList :: scid :: splitOnC ':' rest := by
  have hform : "did:tdw:".toList ++ (scid ++ ':' :: rest) =
      "did".toList ++ ':' :: ("tdw".toList ++ ':' :: (scid ++ ':' :: rest)) :=
    rfl
  rw [hform, splitOnC_append ':' _ _ (by decide),
    splitOnC_append ':' _ _ (by decide), splitOnC_append ':' _ _ hs2]

/-- Evaluation of the parser once the colon-split of its input is known. -/
theorem parse_eval (scid : List Char) (rtl : List (List Char))
    (s : List Char) (hne : rtl ≠ [])
    (hsplit : splitOnC ':' s =
      "did".toList :: "tdw".toList :: scid :: rtl) :
    TdwDid.parse_and_validate_tdw_did s =
      (if ':' ∈ (splitOnceC '/' (joinC ':' rtl)).1 then
        match parseU16 (((splitOnC ':'
            (splitOnceC '/' (joinC ':' rtl)).1).drop 1).headD []) with
        | some p =>
          .ok ⟨scid, (splitOnC ':'
              (splitOnceC '/' (joinC ':' rtl)).1).headD [], some p,
            (splitOnceC '/' (joinC ':' rtl)).2⟩
        | none => .error .InvalidDIDFormat
      else
        .ok ⟨scid, (splitOnceC '/' (joinC ':' rtl)).1, none,
          (splitOnceC '/' (joinC ':' rtl)).2⟩) := by
  have hno : ¬ (("did".toList :: "tdw".toList :: scid :: rtl).length < 4 ∨
      ("did".toList :: "tdw".toList :: scid :: rtl).headD [] ≠
        "did".toList ∨
      (("did".toList :: "tdw".toList :: scid :: rtl).drop 1).headD [] ≠
        "tdw".toList) := by
    intro hcon
    rcases hcon with hA | hB | hC
    · have hz : rtl.length = 0 := by
        simp at hA
        omega
      exact hne (List.length_eq_zero.mp hz)
    · exact hB rfl
    · exact hC rfl
  simp only [TdwDid.parse_and_validate_tdw_did, hsplit]
  rw [if_neg hno]
  rfl

theorem parseUBound_natToDec (bound n : Nat) (h : n < bound) :
    parseUBound bound (natToDec n) = some n := by
  unfold parseUBound
  have hhead : ¬ (natToDec n).head? = some '+' := by
    cases hcase : natToDec n with
    | nil => exact absurd hcase (natToDec_ne_nil n)
    | cons d rest =>
      intro hc
      rw [List.head?_cons] at hc
      injection hc with hc2
      have hmem : d ∈ natToDec n := by
        rw [hcase]
        exact List.mem_cons_self d rest
      have hdd := natToDec_all_digit n d hmem
      rw [hc2] at hdd
      exact absurd hdd (by decide)
  rw [if_neg hhead]
  exact parseDigits_natToDec bound n h

theorem no_slash_in_dec (p : Nat) : '/' ∉ natToDec p := by
  intro hm
  exact absurd (natToDec_all_digit p _ hm) (by decide)

theorem no_colon_in_dec (p : Nat) : ':' ∉ natToDec p := by
  intro hm
  exact absurd (natToDec_all_digit p _ hm) (by decide)

theorem roundtrip_nn (scid domain : List Char) (hs2 : ':' ∉ scid)
    (hd2 : ':' ∉ domain) (hd3 : '/' ∉ domain) :
    TdwDid.parse_and_validate_tdw_did
        (TdwDid.to_string ⟨scid, domain, none, none⟩) =
      .ok ⟨scid, domain, none, none⟩ := by
  have h1 : TdwDid.to_string ⟨scid, domain, none, none⟩ =
      "did:tdw:".toList ++ (scid ++ ':' :: domain) := by
    simp [TdwDid.to_string]
  rw [h1, parse_eval scid (splitOnC ':' domain) _
    (splitOnC_ne_nil ':' domain) (parse_header scid domain hs2),
    joinC_splitOnC ':' domain, splitOnceC_of_not_mem '/' domain hd3]
  dsimp only
  rw [if_neg hd2]

theorem roundtrip_np (scid domain pa : List Char) (hs2 : ':' ∉ scid)
    (hd2 : ':' ∉ domain) (hd3 : '/' ∉ domain) :
    TdwDid.parse_and_validate_tdw_did
        (TdwDid.to_string ⟨scid, domain, none, some pa⟩) =
      .ok ⟨scid, domain, none, some pa⟩ := by
  have h1 : TdwDid.to_string ⟨scid, domain, none, some pa⟩ =
      "did:tdw:".toList ++ (scid ++ ':' :: (domain ++ '/' :: pa)) := by
    simp [TdwDid.to_string]
  rw [h1, parse_eval scid (splitOnC ':' (domain ++ '/' :: pa)) _
    (splitOnC_ne_nil ':' _) (parse_header scid _ hs2),
    joinC_splitOnC ':' _, splitOnceC_append '/' domain pa hd3]
  dsimp only
  rw [if_neg hd2]

theorem roundtrip_pn (scid domain : List Char) (p : Nat) (hs2 : ':' ∉ scid)
    (hd2 : ':' ∉ domain) (hd3 : '/' ∉ domain) (hplt : p < 65536) :
    TdwDid.parse_and_validate_tdw_did
        (TdwDid.to_string ⟨scid, domain, some p, none⟩) =
      .ok ⟨scid, domain, some p, none⟩ := by
  have h1 : TdwDid.to_string ⟨scid, domain, some p, none⟩ =
      "did:tdw:".toList ++ (scid ++ ':' :: (domain ++ ':' :: natToDec p)) := by
    simp [TdwDid.to_string]
  have hslash : '/' ∉ domain ++ ':' :: natToDec p := by
    intro hm
    rcases List.mem_append.mp hm with hm | hm
    · exact hd3 hm
    · rcases List.mem_cons.mp hm with hm | hm
      · exact absurd hm (by decide)
      · exact no_slash_in_dec p hm
  have hmem : ':' ∈ domain ++ ':' :: natToDec p :=
    List.mem_append_right _ (List.mem_cons_self ':' _)
  rw [h1, parse_eval scid (splitOnC ':' (domain ++ ':' :: natToDec p)) _
    (splitOnC_ne_nil ':' _) (parse_header scid _ hs2),
    joinC_splitOnC ':' _, splitOnceC_of_not_mem '/' _ hslash]
  dsimp only
  rw [if_pos hmem, splitOnC_append ':' domain _ hd2,
    splitOnC_of_not_mem ':' (natToDec p) (no_colon_in_dec p)]
  have hx : (List.drop 1 (domain :: [natToDec p])).headD ([] : List Char) =
      natToDec p := rfl
  rw [hx, show parseU16 (natToDec p) = some p from
    parseUBound_natToDec 65536 p hplt]
  rfl

theorem roundtrip_pp (scid domain : List Char) (p : Nat) (pa : List Char)
    (hs2 : ':' ∉ scid) (hd2 : ':' ∉ domain) (hd3 : '/' ∉ domain)
    (hplt : p < 65536) :
    TdwDid.parse_and_validate_tdw_did
        (TdwDid.to_string ⟨scid, domain, some p, some pa⟩) =
      .ok ⟨scid, domain, some p, some pa⟩ := by
  have h1 : TdwDid.to_string ⟨scid, domain, some p, some pa⟩ =
      "did:tdw:".toList ++
        (scid ++ ':' :: (domain ++ ':' :: (natToDec p ++ '/' :: pa))) := by
    simp [TdwDid.to_string]
  have hslash : '/' ∉ domain ++ ':' :: natToDec p := by
    intro hm
    rcases List.mem_append.mp hm with hm | hm
    · exact hd3 hm
    · rcases List.mem_cons.mp hm with hm | hm
      · exact absurd hm (by decide)
      · exact no_slash_in_dec p hm
  have hmem : ':' ∈ domain ++ ':' :: natToDec p :=
    List.mem_append_right _ (List.mem_cons_self ':' _)
  have hassoc : domain ++ ':' :: (natToDec p ++ '/' :: pa) =
      (domain ++ ':' :: natToDec p) ++ '/' :: pa := by
    simp
  rw [h1, parse_eval scid
    (splitOnC ':' (domain ++ ':' :: (natToDec p ++ '/' :: pa))) _
    (splitOnC_ne_nil ':' _) (parse_header scid _ hs2),
    joinC_splitOnC ':' _, hassoc, splitOnceC_append '/' _ pa hslash]
  dsimp only
  rw [if_pos hmem, splitOnC_append ':' domain _ hd2,
    splitOnC_of_not_mem ':' (natToDec p) (no_colon_in_dec p)]
  have hx : (List.drop 1 (domain :: [natToDec p])).headD ([] : List Char) =
      natToDec p := rfl
  rw [hx, show parseU16 (natToDec p) = some p from
    parseUBound_natToDec 65536 p hplt]
  rfl

/-- Claim C8: parsing the canonical string form of a valid `TdwDid`
(scid and domain non-empty and containing neither `:` nor `/`, port in the
`u16` range) recovers it exactly, for every combination of present or
absent port and path. -/
theorem tdw_did_roundtrip (d : TdwDid)
    (_hs1 : d.scid ≠ []) (hs2 : ':' ∉ d.scid) (_hs3 : '/' ∉ d.scid)
    (_hd1 : d.domain ≠ []) (hd2 : ':' ∉ d.domain) (hd3 : '/' ∉ d.domain)
    (hp : ∀ q ∈ d.port, q < 65536) :
    TdwDid.parse_and_validate_tdw_did (TdwDid.to_string d) = .ok d := by
  obtain ⟨scid, domain, port, path⟩ := d
  cases port with
  | none =>
    cases path with
    | none => exact roundtrip_nn scid domain hs2 hd2 hd3
    | some pa => exact roundtrip_np scid domain pa hs2 hd2 hd3
  | some p =>
    have hplt : p < 65536 := by
      refine hp p ?_
      rfl
    cases path with
    | none => exact roundtrip_pn scid domain p hs2 hd2 hd3 hplt
    | some pa => exact roundtrip_pp scid domain p pa hs2 hd2 hd3 hplt

/-- Witness for `tdw_did_roundtrip` on a concrete identifier with both a
port and a path. -/
theorem tdw_did_roundtrip_witness :
    TdwDid.parse_and_validate_tdw_did (TdwDid.to_string
        ⟨"abc".toList, "example.com".toList, some 8080,
          some "path/to".toList⟩) =
      .ok ⟨"abc".toList, "example.com".toList, some 8080,
        some "path/to".toList⟩ :=
  tdw_did_roundtrip
    ⟨"abc".toList, "example.com".toList, some 8080, some "path/to".toList⟩
    (by decide) (by decide) (by decide) (by decide) (by decide) (by decide)
    (by
      intro q hq
      rw [Option.mem_def] at hq
      injection hq with h2
      omega)

/-! ## Claim C9 (malformed log lines are skipped silently) -/

theorem stripCR_of_not_mem (l : List Char) (h : '\x0d' ∉ l) :
    stripCR l = l := by
  unfold stripCR
  split
  · rename_i hg
    exact absurd (List.mem_of_mem_getLast? hg) h
  · rfl

theorem splitOnC_joinC (c : Char) (ls : List (List Char))
    (hall : ∀ l ∈ ls, c ∉ l) : ls ≠ [] →
    splitOnC c (joinC c ls) = ls := by
  induction ls with
  | nil => intro hne; exact absurd rfl hne
  | cons l ls2 ih =>
    intro _
    cases ls2 with
    | nil =>
      have hj : joinC c [l] = l := rfl
      rw [hj, splitOnC_of_not_mem c l (hall l (List.mem_cons_self l []))]
    | cons l2 rest =>
      have hj : joinC c (l :: l2 :: rest) = l ++ c :: joinC c (l2 :: rest) :=
        rfl
      rw [hj, splitOnC_append c l _ (hall l (List.mem_cons_self _ _))]
      rw [ih (fun x hx => hall x (List.mem_cons_of_mem l hx)) (by simp)]

theorem linesOf_joinC (ls : List (List Char))
    (hall : ∀ l ∈ ls, '\n' ∉ l ∧ '\x0d' ∉ l)
    (hlast : ls.getLast? ≠ some []) :
    linesOf (joinC '\n' ls) = ls := by
  cases ls with
  | nil => rfl
  | cons l0 rest =>
    simp only [linesOf]
    rw [splitOnC_joinC '\n' (l0 :: rest) (fun x hx => (hall x hx).1)
      (by simp)]
    rw [if_neg hlast]
    have hfix : ∀ x ∈ l0 :: rest, stripCR x = x := fun x hx =>
      stripCR_of_not_mem x (hall x hx).2
    rw [List.map_congr_left hfix, List.map_id']

/-- Claim C9: the entries submitted to the verifier are exactly the lines
that deserialize, in original order; a line that fails to deserialize is
skipped silently — removing it from the log text changes neither the
fetched entry list nor the outcome of the replay, so a later well-formed
entry numbered `current_version + 1` is still accepted. -/
theorem fetch_skips_malformed_lines
    (parse : List Char → Option DIDLogEntry) (H : Hashers)
    (s0 : ResolverState) (clocks : List Int)
    (l1 l2 : List (List Char)) (j : List Char)
    (hclean : ∀ l ∈ l1 ++ j :: l2, '\n' ∉ l ∧ '\x0d' ∉ l)
    (hlast1 : (l1 ++ j :: l2).getLast? ≠ some [])
    (hlast2 : (l1 ++ l2).getLast? ≠ some [])
    (hj : parse j = none) :
    fetch_did_log parse (joinC '\n' (l1 ++ j :: l2)) =
      (l1 ++ j :: l2).filterMap parse ∧
    fetch_did_log parse (joinC '\n' (l1 ++ j :: l2)) =
      fetch_did_log parse (joinC '\n' (l1 ++ l2)) ∧
    replay H s0
        (clocks.zip (fetch_did_log parse (joinC '\n' (l1 ++ j :: l2)))) =
      replay H s0
        (clocks.zip (fetch_did_log parse (joinC '\n' (l1 ++ l2)))) := by
  have hclean2 : ∀ l ∈ l1 ++ l2, '\n' ∉ l ∧ '\x0d' ∉ l := by
    intro l hl
    refine hclean l ?_
    rcases List.mem_append.mp hl with h | h
    · exact List.mem_append_left _ h
    · exact List.mem_append_right _ (List.mem_cons_of_mem j h)
  have hf1 : fetch_did_log parse (joinC '\n' (l1 ++ j :: l2)) =
      (l1 ++ j :: l2).filterMap parse := by
    unfold fetch_did_log
    rw [linesOf_joinC _ hclean hlast1]
  have hf2 : fetch_did_log parse (joinC '\n' (l1 ++ l2)) =
      (l1 ++ l2).filterMap parse := by
    unfold fetch_did_log
    rw [linesOf_joinC _ hclean2 hlast2]
  have heq : (l1 ++ j :: l2).filterMap parse =
      (l1 ++ l2).filterMap parse := by
    simp [List.filterMap_append, List.filterMap_cons, hj]
  exact ⟨hf1, by rw [hf1, hf2, heq], by rw [hf1, hf2, heq]⟩

/-- A concrete line deserializer for the witness: only the line `g`
parses. -/
def parseW : List Char → Option DIDLogEntry :=
  fun l => if l = ['g'] then some eGen else none

/-- Witness for `fetch_skips_malformed_lines` on a concrete two-line log
whose second line is junk. -/
theorem fetch_skips_malformed_lines_witness :
    fetch_did_log parseW (joinC '\n' ([['g']] ++ ['x'] :: [])) =
      ([['g']] ++ ['x'] :: []).filterMap parseW :=
  (fetch_skips_malformed_lines parseW hashersC DidResolver.new [5]
    [['g']] [] ['x'] (by decide) (by decide) (by decide) rfl).1

end TrustDidWeb
